import Mathlib

set_option autoImplicit false

/-
Verification of the ctl10n conversion pipeline (src/toml_parser.rs,
src/error.rs, src/lib.rs): parsing a flat TOML string table and generating
the tr!() lookup code.

The external `toml` crate's grammar parser and Rust's `HashMap` iteration
order are not part of this repository; they enter the embedding as explicit
parameters (`tomlParse`, `pick`), constrained in theorem hypotheses.
-/

deriving instance DecidableEq for Except

namespace Ctl10n

/-- Values of the TOML data model, as produced by the external `toml` crate's
grammar parser (`toml::Value`). The float payload is omitted because
`parse_toml` only ever inspects the constructor of a non-string value. -/
inductive TomlValue where
  | string : String → TomlValue
  | integer : Int → TomlValue
  | float : TomlValue
  | boolean : Bool → TomlValue
  | datetime : String → TomlValue
  | array : List TomlValue → TomlValue
  | table : List (String × TomlValue) → TomlValue

/-- The external grammar parser's diagnostic (`toml::de::Error`), carried as
its rendered message. -/
structure TomlDeError where
  message : String
  deriving DecidableEq

/-- src/error.rs lines 1-6: the error taxonomy. The IOError payload is the
rendered message of the underlying `std::io::Error`. -/
inductive Error where
  | IOError : String → Error
  | TOMLParseError : TomlDeError → Error
  | TOMLStructureError : Error
  deriving DecidableEq

/-- src/error.rs lines 9-13: `impl From for Error` converting a
`toml::de::Error` (used by the `?` operator in `parse_toml`). -/
def Error.fromTomlDe (other : TomlDeError) : Error :=
  Error.TOMLParseError other

/-- src/error.rs lines 21-35: `impl Display for Error`, the displayed
message of each error. -/
def Error.display : Error → String
  | Error.IOError err => "I/O error: " ++ err
  | Error.TOMLParseError err => "Error parsing TOML: " ++ err.message
  | Error.TOMLStructureError => "Strings TOML must be flat string/string table"

/-- src/toml_parser.rs lines 8-17: the `table.into_iter().map(..).collect()`
chain of `parse_toml`. Each entry must hold a string value; the first
non-string value short-circuits the `collect::<Result<_>>` to
`TOMLStructureError`. Entries are produced in the iteration order of the
`toml::value::Table`; the Rust code collects them into a `HashMap`, whose
own iteration order is modelled separately (see  gen_strings_macro ). -/
def collectStrings : List (String × TomlValue) → Except Error (List (String × String))
  | [] => Except.ok []
  | (key, TomlValue.string s) :: rest =>
      (collectStrings rest).map (fun tail => (key, s) :: tail)
  | (_, _) :: _ => Except.error Error.TOMLStructureError

/-- src/toml_parser.rs lines 4-21: `parse_toml`, factored over the external
grammar parser: the argument is the result of `toml.parse::<toml::Value>()`
on the input text; a grammar error is wrapped through `Error.fromTomlDe`
by the `?` operator. -/
def parse_toml (parsed : Except TomlDeError TomlValue) : Except Error (List (String × String)) :=
  match parsed with
  | Except.error err => Except.error (Error.fromTomlDe err)
  | Except.ok (TomlValue.table t) => collectStrings t
  | Except.ok _ => Except.error Error.TOMLStructureError

/-- One rule of the generated `ctl10n_tr_inner` dispatcher: either a
key-literal arm expanding to a value literal, or the final fallback arm
whose body is the `compile_error!` invocation. -/
inductive MacroRule where
  | keyArm : String → String → MacroRule
  | fallbackArm : MacroRule
  deriving DecidableEq

/-- src/lib.rs lines 130-135: the rule list of the generated
`ctl10n_tr_inner` dispatcher: one arm per key/value pair of the `kv`
vector, in the vector's order, followed by the single fallback arm. -/
def innerRules (kv : List (String × String)) : List MacroRule :=
  kv.map (fun p => MacroRule.keyArm p.1 p.2) ++ [MacroRule.fallbackArm]

/-- Expansion semantics of `ctl10n_tr_inner!(key)` for a string-literal key
token: the first matching rule wins; `some v` means expansion to the literal
`v`, `none` means the fallback arm's `compile_error!` fires. -/
def lookupRules : List MacroRule → String → Option String
  | [], _ => none
  | MacroRule.keyArm k v :: rest, key =>
      if key = k then some v else lookupRules rest key
  | MacroRule.fallbackArm :: _, _ => none

/-- src/lib.rs line 133: the message produced by the fallback arm's
`compile_error!(concat!(..))`, as a function of the `stringify!`-ed key
token text. -/
def fallbackMessage (keyToken : String) : String :=
  "There is no string for key \x60" ++ keyToken ++ "\x60"

def MacroRule.isKeyArmFor (r : MacroRule) (k : String) : Bool :=
  match r with
  | MacroRule.keyArm k2 _ => k2 == k
  | MacroRule.fallbackArm => false

def MacroRule.isFallback : MacroRule → Bool
  | MacroRule.keyArm _ _ => false
  | MacroRule.fallbackArm => true

def hexChar (n : Nat) : Char :=
  if n < 10 then Char.ofNat (48 + n) else Char.ofNat (87 + n)

def toHexAux : Nat → Nat → List Char
  | 0, _ => []
  | fuel + 1, n => if n < 16 then [hexChar n] else toHexAux fuel (n / 16) ++ [hexChar (n % 16)]

def natToHex (n : Nat) : String :=
  String.mk (toHexAux 8 n)

/-- Modelled from the external dependency: `proc_macro2::Literal::string`
escapes one character for embedding in a Rust string literal (per-character
`escape_debug`, with the single quote passed through). Exact on ASCII;
non-ASCII code points are passed through unchanged (`escape_debug`
additionally escapes non-printable non-ASCII, which no claim depends on). -/
def escapeChar (c : Char) : String :=
  if c = '"' then "\\\""
  else if c = '\\' then "\\\\"
  else if c = '\n' then "\\n"
  else if c = '\t' then "\\t"
  else if c = '\r' then "\\r"
  else if c = Char.ofNat 0 then "\\0"
  else if c.toNat < 32 ∨ c.toNat = 127 then "\\u\x7b" ++ natToHex c.toNat ++ "\x7d"
  else String.singleton c

/-- The Rust string literal denoting `s` (as emitted by the `quote!`
interpolation of a `&str`, i.e. `proc_macro2::Literal::string`). -/
def rustStringLit (s : String) : String :=
  "\"" ++ String.join (s.toList.map escapeChar) ++ "\""

/-- Rendering of one generated rule as source text. The token spelling
follows the `quote!` template of src/lib.rs lines 130-135; inter-token
spacing is the rendering of `TokenStream::to_string`. -/
def renderRule : MacroRule → String
  | MacroRule.keyArm k v =>
      "(" ++ rustStringLit k ++ ") => \x7b " ++ rustStringLit v ++ " \x7d"
  | MacroRule.fallbackArm =>
      "($key : tt) => \x7b compile_error ! (concat ! (\"There is no string for key \x60\" , stringify ! ($key) , \"\x60\")) \x7d"

/-- The key arms joined by the `;` separator of the `quote!` repetition. -/
def renderKeyArms : List (String × String) → String
  | [] => ""
  | [p] => renderRule (MacroRule.keyArm p.1 p.2)
  | p :: rest => renderRule (MacroRule.keyArm p.1 p.2) ++ " ; " ++ renderKeyArms rest

/-- src/lib.rs lines 129-141: the full `quote!` template rendered to source
text: the `ctl10n_tr_inner` definition (key arms, separator and trailing
semicolon, fallback arm) followed by the fixed `tr` outer dispatcher. -/
def renderGenerated (kv : List (String × String)) : String :=
  "macro_rules ! ctl10n_tr_inner \x7b " ++ renderKeyArms kv ++ " ; "
    ++ renderRule MacroRule.fallbackArm ++ " ; \x7d "
    ++ "macro_rules ! tr \x7b ($key : tt) => \x7b ctl10n_tr_inner ! ($key) \x7d ; ($key : tt , $ ($args : tt) *) => \x7b format ! (ctl10n_tr_inner ! ($key) , $ ($args) *) \x7d ; \x7d"

/-- src/lib.rs lines 120-143:  gen_strings_macro , factored over two
external behaviours: `tomlParse` is the external grammar parser applied to
the input text, and `pick` is the iteration order of the
`HashMap<String, String>` returned by `parse_toml`. A Rust `HashMap`'s
iteration order is unspecified (its RandomState differs between map
instances), so it is a parameter, constrained in the theorems to produce a
permutation of the parsed entries. -/
def gen_strings_macro (tomlParse : String → Except TomlDeError TomlValue)
    (pick : List (String × String) → List (String × String))
    (input : String) : Except Error String :=
  match parse_toml (tomlParse input) with
  | Except.error e => Except.error e
  | Except.ok strings => Except.ok (renderGenerated (pick strings))

/-- File contents are modelled as character lists and the file system as a
partial map from path to contents. -/
def FS : Type := String → Option (List Char)

/-- src/lib.rs lines 155-159: the output file is opened with
`write(true).create(true)` and WITHOUT truncation, and the generated code is
written at offset 0: previous contents beyond the written range survive. -/
def writeAt0 (old : Option (List Char)) (code : List Char) : List Char :=
  code ++ (old.getD []).drop code.length

/-- src/lib.rs lines 147-161: `convert_strings_file`. The input file is read
and the code generated before the output file is opened, so every failure
happens while the file system is still untouched. Returns the resulting
file system together with the error, if any. -/
def convert_strings_file (tomlParse : String → Except TomlDeError TomlValue)
    (pick : List (String × String) → List (String × String))
    (fs : FS) (tomlFile rsFile : String) : FS × Option Error :=
  match fs tomlFile with
  | none => (fs, some (Error.IOError "No such file or directory"))
  | some inputChars =>
    match gen_strings_macro tomlParse pick (String.mk inputChars) with
    | Except.error e => (fs, some e)
    | Except.ok code =>
        (fun p => if p = rsFile then some (writeAt0 (fs rsFile) code.data) else fs p, none)

/-- A flat string-to-string table `T`, as the `toml::Value` that the grammar
parser produces from `T`'s serialized form. -/
def stringTableValue (T : List (String × String)) : TomlValue :=
  TomlValue.table (T.map (fun p => (p.1, TomlValue.string p.2)))

theorem collectStrings_stringTable (T : List (String × String)) :
    collectStrings (T.map (fun p => (p.1, TomlValue.string p.2))) = Except.ok T := by
  induction T with
  | nil => rfl
  | cons p rest ih => simp [collectStrings, ih, Except.map]

theorem parse_toml_stringTable (T : List (String × String)) :
    parse_toml (Except.ok (stringTableValue T)) = Except.ok T := by
  simp [parse_toml, stringTableValue, collectStrings_stringTable]

theorem collectStrings_ok_strings {t : List (String × TomlValue)}
    {entries : List (String × String)}
    (h : collectStrings t = Except.ok entries) :
    ∀ p ∈ t, ∃ s, p.2 = TomlValue.string s := by
  induction t generalizing entries with
  | nil => intro p hp; cases hp
  | cons q rest ih =>
    obtain ⟨k, v⟩ := q
    intro p hp
    cases v with
    | string s =>
      cases hrest : collectStrings rest with
      | error e => simp [collectStrings, hrest, Except.map] at h
      | ok tail =>
        rcases List.mem_cons.mp hp with hp | hp
        · exact ⟨s, by rw [hp]⟩
        · exact ih hrest p hp
    | integer n => simp [collectStrings] at h
    | float => simp [collectStrings] at h
    | boolean b => simp [collectStrings] at h
    | datetime d => simp [collectStrings] at h
    | array l => simp [collectStrings] at h
    | table l => simp [collectStrings] at h

theorem collectStrings_error_eq {t : List (String × TomlValue)} {e : Error}
    (h : collectStrings t = Except.error e) :
    e = Error.TOMLStructureError := by
  induction t generalizing e with
  | nil => cases h
  | cons q rest ih =>
    obtain ⟨k, v⟩ := q
    cases v with
    | string s =>
      cases hrest : collectStrings rest with
      | error e2 =>
        simp [collectStrings, hrest, Except.map] at h
        rw [← h]
        exact ih hrest
      | ok tail => simp [collectStrings, hrest, Except.map] at h
    | integer n => simp [collectStrings] at h; exact h.symm
    | float => simp [collectStrings] at h; exact h.symm
    | boolean b => simp [collectStrings] at h; exact h.symm
    | datetime d => simp [collectStrings] at h; exact h.symm
    | array l => simp [collectStrings] at h; exact h.symm
    | table l => simp [collectStrings] at h; exact h.symm

theorem collectStrings_nonstring {t : List (String × TomlValue)}
    (h : ∃ p ∈ t, ∀ s, p.2 ≠ TomlValue.string s) :
    collectStrings t = Except.error Error.TOMLStructureError := by
  induction t with
  | nil => rcases h with ⟨p, hp, _⟩; cases hp
  | cons q rest ih =>
    obtain ⟨k, v⟩ := q
    rcases h with ⟨p, hp, hbad⟩
    cases v with
    | string s =>
      rcases List.mem_cons.mp hp with hp | hp
      · exact absurd rfl (hp ▸ hbad s)
      · simp [collectStrings, ih ⟨p, hp, hbad⟩, Except.map]
    | integer n => rfl
    | float => rfl
    | boolean b => rfl
    | datetime d => rfl
    | array l => rfl
    | table l => rfl

theorem lookupRules_innerRules {kv : List (String × String)} {k v : String}
    (hnodup : (kv.map Prod.fst).Nodup) (hmem : (k, v) ∈ kv) :
    lookupRules (innerRules kv) k = some v := by
  induction kv with
  | nil => cases hmem
  | cons q rest ih =>
    rw [List.map_cons, List.nodup_cons] at hnodup
    rcases List.mem_cons.mp hmem with hmem | hmem
    · rw [← hmem]
      simp [innerRules, lookupRules]
    · have hk : k ≠ q.1 := by
        intro hkq
        exact hnodup.1 (hkq ▸ List.mem_map_of_mem Prod.fst hmem)
      have hrec := ih hnodup.2 hmem
      simpa [innerRules, lookupRules, hk] using hrec

theorem countP_keyArm (kv : List (String × String)) (k : String)
    (hnodup : (kv.map Prod.fst).Nodup) :
    ((innerRules kv).countP (fun r => MacroRule.isKeyArmFor r k)) =
      if k ∈ kv.map Prod.fst then 1 else 0 := by
  induction kv with
  | nil => simp [innerRules, MacroRule.isKeyArmFor]
  | cons q rest ih =>
    obtain ⟨qk, qv⟩ := q
    rw [List.map_cons, List.nodup_cons] at hnodup
    have hcons : innerRules ((qk, qv) :: rest) = MacroRule.keyArm qk qv :: innerRules rest := by
      simp [innerRules]
    rw [hcons, List.countP_cons, ih hnodup.2]
    by_cases hk : k = qk
    · subst hk
      simp [MacroRule.isKeyArmFor, hnodup.1]
    · have hmemiff : (k ∈ qk :: List.map Prod.fst rest) ↔ k ∈ List.map Prod.fst rest := by
        simp [List.mem_cons, hk]
      simp [MacroRule.isKeyArmFor, Ne.symm hk]
      exact (if_congr hmemiff rfl rfl).symm

theorem countP_fallback (kv : List (String × String)) :
    (innerRules kv).countP (fun r => MacroRule.isFallback r) = 1 := by
  induction kv with
  | nil => simp [innerRules, MacroRule.isFallback]
  | cons q rest ih =>
    have hcons : innerRules (q :: rest) = MacroRule.keyArm q.1 q.2 :: innerRules rest := by
      simp [innerRules]
    rw [hcons, List.countP_cons, ih]
    simp [MacroRule.isFallback]

/-- C1: round-trip fidelity. For every flat string-to-string table `T`,
running the pipeline on the parse of `T`'s serialized form succeeds, and for
every pair `(k, v)` of `T` the inner dispatcher holds exactly the arm
`(k) => (v)` with the value unchanged, and the dispatch of `k` expands to
exactly `v` — whatever iteration order the intermediate `HashMap` uses. -/
theorem roundtrip_fidelity
    (T : List (String × String))
    (tomlParse : String → Except TomlDeError TomlValue)
    (pick : List (String × String) → List (String × String))
    (input : String)
    (hser : tomlParse input = Except.ok (stringTableValue T))
    (hpick : ∀ l, (pick l).Perm l)
    (hnodup : (T.map Prod.fst).Nodup) :
    gen_strings_macro tomlParse pick input = Except.ok (renderGenerated (pick T)) ∧
    ∀ k v, (k, v) ∈ T →
      MacroRule.keyArm k v ∈ innerRules (pick T) ∧
      lookupRules (innerRules (pick T)) k = some v := by
  constructor
  · simp [ gen_strings_macro, hser, parse_toml_stringTable]
  · intro k v hmem
    have hperm := hpick T
    have hnodup2 : ((pick T).map Prod.fst).Nodup :=
      ((hperm.map Prod.fst).nodup_iff).mpr hnodup
    have hmem2 : (k, v) ∈ pick T := hperm.mem_iff.mpr hmem
    refine ⟨?_, lookupRules_innerRules hnodup2 hmem2⟩
    exact List.mem_append_left _ (List.mem_map_of_mem _ hmem2)

/-- C1 witness: a concrete two-key table (with an embedded brace placeholder
and a unicode value) round-trips through the pipeline. -/
theorem roundtrip_fidelity_witness :
    gen_strings_macro
        (fun _ => Except.ok (stringTableValue [("greet", "Hello \x7bname\x7d"), ("bye", "Пока")]))
        (fun l => l) "" =
      Except.ok (renderGenerated [("greet", "Hello \x7bname\x7d"), ("bye", "Пока")]) ∧
    lookupRules (innerRules [("greet", "Hello \x7bname\x7d"), ("bye", "Пока")]) "greet" =
      some "Hello \x7bname\x7d" := by
  have h := roundtrip_fidelity [("greet", "Hello \x7bname\x7d"), ("bye", "Пока")]
    (fun _ => Except.ok (stringTableValue [("greet", "Hello \x7bname\x7d"), ("bye", "Пока")]))
    (fun l => l) "" rfl (fun l => List.Perm.refl l) (by decide)
  exact ⟨h.1, (h.2 "greet" "Hello \x7bname\x7d" (by decide)).2⟩

/-- C2: a top-level table holding at least one non-string value makes
`parse_toml` signal `TOMLStructureError`, no partial table is produced, and
the whole generation fails, even when other entries are valid string pairs. -/
theorem nonstring_value_rejected
    (tomlParse : String → Except TomlDeError TomlValue) (input : String)
    (t : List (String × TomlValue))
    (hparse : tomlParse input = Except.ok (TomlValue.table t))
    (hbad : ∃ p ∈ t, ∀ s, p.2 ≠ TomlValue.string s) :
    parse_toml (tomlParse input) = Except.error Error.TOMLStructureError ∧
    (∀ entries, parse_toml (tomlParse input) ≠ Except.ok entries) ∧
    ∀ pick, gen_strings_macro tomlParse pick input = Except.error Error.TOMLStructureError := by
  have h1 : parse_toml (tomlParse input) = Except.error Error.TOMLStructureError := by
    rw [hparse]
    simp [parse_toml, collectStrings_nonstring hbad]
  refine ⟨h1, fun entries hc => ?_, fun pick => ?_⟩
  · rw [h1] at hc; cases hc
  · simp [ gen_strings_macro, h1]

/-- C2 witness: the table of `a = "x", b = 5` is rejected whole. -/
theorem nonstring_value_rejected_witness :
    parse_toml (Except.ok (TomlValue.table
        [("a", TomlValue.string "x"), ("b", TomlValue.integer 5)])) =
      Except.error Error.TOMLStructureError := by
  have h := nonstring_value_rejected
    (fun _ => Except.ok (TomlValue.table
        [("a", TomlValue.string "x"), ("b", TomlValue.integer 5)]))
    "" [("a", TomlValue.string "x"), ("b", TomlValue.integer 5)] rfl
    ⟨("b", TomlValue.integer 5), by simp, fun s hs => by cases hs⟩
  exact h.1

/-- C3: `parse_toml` rejects any top-level value that is not a table with
`TOMLStructureError`, and succeeds only when the top level is a table all of
whose values are plain string scalars. -/
theorem parse_toml_top_level (v : TomlValue) :
    ((∀ t, v ≠ TomlValue.table t) → parse_toml (Except.ok v) = Except.error Error.TOMLStructureError) ∧
    ∀ entries, parse_toml (Except.ok v) = Except.ok entries →
      ∃ t, v = TomlValue.table t ∧ ∀ p ∈ t, ∃ s, p.2 = TomlValue.string s := by
  constructor
  · intro hnt
    cases v with
    | table t => exact absurd rfl (hnt t)
    | string s => rfl
    | integer n => rfl
    | float => rfl
    | boolean b => rfl
    | datetime d => rfl
    | array l => rfl
  · intro entries h
    cases v with
    | table t =>
      refine ⟨t, rfl, ?_⟩
      have hc : collectStrings t = Except.ok entries := by simpa [parse_toml] using h
      exact collectStrings_ok_strings hc
    | string s => simp [parse_toml] at h
    | integer n => simp [parse_toml] at h
    | float => simp [parse_toml] at h
    | boolean b => simp [parse_toml] at h
    | datetime d => simp [parse_toml] at h
    | array l => simp [parse_toml] at h

/-- C3 witness: a top-level integer is a structure error, and a successful
parse of a concrete table certifies its all-string shape. -/
theorem parse_toml_top_level_witness :
    parse_toml (Except.ok (TomlValue.integer 5)) = Except.error Error.TOMLStructureError ∧
    ∃ t, stringTableValue [("a", "x")] = TomlValue.table t ∧
      ∀ p ∈ t, ∃ s, p.2 = TomlValue.string s := by
  refine ⟨(parse_toml_top_level (TomlValue.integer 5)).1 (fun t h => by cases h), ?_⟩
  exact (parse_toml_top_level (stringTableValue [("a", "x")])).2 [("a", "x")] rfl

/-- C4: a grammar-level failure of the external parser is signalled as a
`TOMLParseError` wrapping the underlying diagnostic — never as a
`TOMLStructureError`. -/
theorem syntax_error_is_parse_error
    (tomlParse : String → Except TomlDeError TomlValue) (input : String) (e : TomlDeError)
    (h : tomlParse input = Except.error e) :
    parse_toml (tomlParse input) = Except.error (Error.TOMLParseError e) ∧
    (∀ pick, gen_strings_macro tomlParse pick input = Except.error (Error.TOMLParseError e)) ∧
    Error.TOMLParseError e ≠ Error.TOMLStructureError := by
  have h1 : parse_toml (tomlParse input) = Except.error (Error.TOMLParseError e) := by
    rw [h]; rfl
  exact ⟨h1, fun pick => by simp [ gen_strings_macro, h1], fun hc => by cases hc⟩

/-- C4 witness: a concrete unterminated-string diagnostic is wrapped as a
parse error. -/
theorem syntax_error_is_parse_error_witness :
    parse_toml (Except.error ⟨"unterminated string at line 1"⟩) =
      Except.error (Error.TOMLParseError ⟨"unterminated string at line 1"⟩) := by
  exact (syntax_error_is_parse_error
    (fun _ => Except.error ⟨"unterminated string at line 1"⟩) "" _ rfl).1

/-- C5 counterexample: the pipeline is NOT a deterministic function of the
input bytes. The parsed entries pass through a `HashMap`, whose iteration
order is unspecified and differs between map instances even in one process;
two runs of the pipeline on identical input, with two orders that are both
permutations of the same parsed entries, produce different output text. -/
theorem determinism_cex :
    parse_toml (Except.ok (stringTableValue [("a", "x"), ("b", "y")])) =
      Except.ok [("a", "x"), ("b", "y")] ∧
    (List.reverse [("a", "x"), ("b", "y")]).Perm [("a", "x"), ("b", "y")] ∧
    gen_strings_macro (fun _ => Except.ok (stringTableValue [("a", "x"), ("b", "y")]))
        (fun l => l) "" ≠
      gen_strings_macro (fun _ => Except.ok (stringTableValue [("a", "x"), ("b", "y")]))
        List.reverse "" := by
  exact ⟨rfl, by decide, by decide⟩

/-- C5 (amended): two conversions of identical input bytes agree on failure
(identical error), and on success their outputs render the same multiset of
inner-dispatcher rules — the output is deterministic up to the order of the
key arms, which follows the unspecified `HashMap` iteration order. -/
theorem gen_deterministic_up_to_arm_order
    (tomlParse : String → Except TomlDeError TomlValue)
    (pick1 pick2 : List (String × String) → List (String × String))
    (input : String)
    (h1 : ∀ l, (pick1 l).Perm l) (h2 : ∀ l, (pick2 l).Perm l) :
    (∀ e, ( gen_strings_macro tomlParse pick1 input = Except.error e ↔
      gen_strings_macro tomlParse pick2 input = Except.error e)) ∧
    ∀ entries, parse_toml (tomlParse input) = Except.ok entries →
      (innerRules (pick1 entries)).Perm (innerRules (pick2 entries)) := by
  constructor
  · intro e
    cases hp : parse_toml (tomlParse input) with
    | error e2 => simp [ gen_strings_macro, hp]
    | ok strings => simp [ gen_strings_macro, hp]
  · intro entries hp
    have hperm : (pick1 entries).Perm (pick2 entries) := (h1 entries).trans (h2 entries).symm
    simp only [innerRules]
    exact List.Perm.append (hperm.map _) (List.Perm.refl _)

/-- C5 amended witness: at a concrete table, two valid iteration orders give
a permutation of each other's rules. -/
theorem gen_deterministic_up_to_arm_order_witness :
    (innerRules [("a", "x"), ("b", "y")]).Perm
      (innerRules (List.reverse [("a", "x"), ("b", "y")])) := by
  exact (gen_deterministic_up_to_arm_order
    (fun _ => Except.ok (stringTableValue [("a", "x"), ("b", "y")]))
    (fun l => l) List.reverse ""
    (fun l => List.Perm.refl l) (fun l => List.reverse_perm l)).2
    [("a", "x"), ("b", "y")] rfl

/-- C6 counterexample: the generated arms need not follow the order in which
the keys appear in the input document. `parse_toml` returns a `HashMap`
(an unordered container); the reversed order is an equally valid iteration
order of that map, and it yields a different arm list than document order. -/
theorem order_preservation_cex :
    parse_toml (Except.ok (stringTableValue [("a", "x"), ("b", "y")])) =
      Except.ok [("a", "x"), ("b", "y")] ∧
    (List.reverse [("a", "x"), ("b", "y")]).Perm [("a", "x"), ("b", "y")] ∧
    innerRules (List.reverse [("a", "x"), ("b", "y")]) ≠
      innerRules [("a", "x"), ("b", "y")] := by
  exact ⟨rfl, by decide, by decide⟩

/-- C6 (amended): the generated arms follow the iteration order of the
`HashMap` returned by the parse stage — an unspecified permutation of the
parsed entries, not necessarily document order; since keys are unique the
order is unobservable through lookup, which returns each key's own value. -/
theorem arms_follow_map_iteration_order
    (tomlParse : String → Except TomlDeError TomlValue)
    (pick : List (String × String) → List (String × String))
    (input : String) (entries : List (String × String))
    (hparse : parse_toml (tomlParse input) = Except.ok entries)
    (hpick : ∀ l, (pick l).Perm l)
    (hnodup : (entries.map Prod.fst).Nodup) :
    gen_strings_macro tomlParse pick input = Except.ok (renderGenerated (pick entries)) ∧
    innerRules (pick entries) =
      (pick entries).map (fun p => MacroRule.keyArm p.1 p.2) ++ [MacroRule.fallbackArm] ∧
    (pick entries).Perm entries ∧
    ∀ k v, (k, v) ∈ entries → lookupRules (innerRules (pick entries)) k = some v := by
  refine ⟨by simp [ gen_strings_macro, hparse], rfl, hpick entries, ?_⟩
  intro k v hmem
  have hperm := hpick entries
  have hnodup2 : ((pick entries).map Prod.fst).Nodup :=
    ((hperm.map Prod.fst).nodup_iff).mpr hnodup
  exact lookupRules_innerRules hnodup2 (hperm.mem_iff.mpr hmem)

/-- C6 amended witness: concrete instance with the reversed iteration
order. -/
theorem arms_follow_map_iteration_order_witness :
    lookupRules (innerRules (List.reverse [("a", "x"), ("b", "y")])) "a" = some "x" := by
  exact (arms_follow_map_iteration_order
    (fun _ => Except.ok (stringTableValue [("a", "x"), ("b", "y")]))
    List.reverse "" [("a", "x"), ("b", "y")] rfl
    (fun l => List.reverse_perm l) (by decide)).2.2.2 "a" "x" (by decide)

/-- C7: shape of the inner dispatcher. For every table with unique keys
(including the empty one) the generated rule list holds exactly one key arm
per key of the table and no key arm for any other key, exactly one fallback
arm, placed last, and the fallback's `compile_error!` message contains the
literal text of the offending key token. -/
theorem inner_dispatcher_shape (kv : List (String × String))
    (hnodup : (kv.map Prod.fst).Nodup) :
    (∀ k, ((innerRules kv).countP (fun r => MacroRule.isKeyArmFor r k)) =
      if k ∈ kv.map Prod.fst then 1 else 0) ∧
    ((innerRules kv).countP (fun r => MacroRule.isFallback r) = 1) ∧
    ((innerRules kv).getLast? = some MacroRule.fallbackArm) ∧
    ∀ keyToken, ∃ pre,
      fallbackMessage keyToken = pre ++ keyToken ++ "\x60" := by
  refine ⟨fun k => countP_keyArm kv k hnodup, countP_fallback kv, ?_, ?_⟩
  · show ((kv.map fun p => MacroRule.keyArm p.1 p.2) ++ [MacroRule.fallbackArm]).getLast? =
      some MacroRule.fallbackArm
    exact List.getLast?_concat _
  · intro keyToken
    exact ⟨"There is no string for key \x60", rfl⟩

/-- C7 witness: the empty table yields exactly the fallback arm and nothing
else. -/
theorem inner_dispatcher_shape_witness :
    ((innerRules []).countP (fun r => MacroRule.isKeyArmFor r "missing") = 0) ∧
    ((innerRules []).countP (fun r => MacroRule.isFallback r) = 1) ∧
    (innerRules []).getLast? = some MacroRule.fallbackArm := by
  have h := inner_dispatcher_shape [] (by decide)
  exact ⟨by simpa using h.1 "missing", h.2.1, h.2.2.1⟩

/-- C8: atomicity of failure. Whenever `convert_strings_file` returns an
error — I/O, parse or structural — the file system is returned unchanged:
the output location is neither created nor modified, because the output
file is only opened after generation has succeeded. -/
theorem failure_leaves_fs_unchanged
    (tomlParse : String → Except TomlDeError TomlValue)
    (pick : List (String × String) → List (String × String))
    (fs : FS) (tomlFile rsFile : String) (e : Error)
    (h : (convert_strings_file tomlParse pick fs tomlFile rsFile).2 = some e) :
    (convert_strings_file tomlParse pick fs tomlFile rsFile).1 = fs := by
  cases hin : fs tomlFile with
  | none => simp [convert_strings_file, hin]
  | some inputChars =>
    cases hgen : gen_strings_macro tomlParse pick (String.mk inputChars) with
    | error e2 => simp [convert_strings_file, hin, hgen]
    | ok code =>
      exfalso
      simp [convert_strings_file, hin, hgen] at h

/-- C8 witness: a failing conversion (grammar error in the input file)
leaves the output path untouched. -/
theorem failure_leaves_fs_unchanged_witness :
    (convert_strings_file (fun _ => Except.error ⟨"bad"⟩) (fun l => l)
      (fun p => if p = "strings.toml" then some ['x'] else none)
      "strings.toml" "strings.rs").1 "strings.rs" = none := by
  have h := failure_leaves_fs_unchanged (fun _ => Except.error ⟨"bad"⟩) (fun l => l)
    (fun p => if p = "strings.toml" then some ['x'] else none) "strings.toml" "strings.rs"
    (Error.TOMLParseError ⟨"bad"⟩) rfl
  rw [h]
  rfl

/-- C9: the structural error is coarse. Every shape rejection yields the
payload-free `TOMLStructureError`, whose displayed message is the fixed
text naming no key or value — any two shape-rejected inputs display the
identical message — in contrast to the unknown-key diagnostic, which embeds
the offending key token. -/
theorem structure_error_is_coarse
    (v w : TomlValue) (e e2 : Error)
    (h : parse_toml (Except.ok v) = Except.error e)
    (h2 : parse_toml (Except.ok w) = Except.error e2) :
    e = Error.TOMLStructureError ∧
    Error.display e = "Strings TOML must be flat string/string table" ∧
    Error.display e2 = Error.display e ∧
    ∀ keyToken, ∃ pre, fallbackMessage keyToken = pre ++ keyToken ++ "\x60" := by
  have he : ∀ (u : TomlValue) (e3 : Error),
      parse_toml (Except.ok u) = Except.error e3 → e3 = Error.TOMLStructureError := by
    intro u e3 h3
    cases u with
    | table t => exact collectStrings_error_eq (by simpa [parse_toml] using h3)
    | string s => simp [parse_toml] at h3; exact h3.symm
    | integer n => simp [parse_toml] at h3; exact h3.symm
    | float => simp [parse_toml] at h3; exact h3.symm
    | boolean b => simp [parse_toml] at h3; exact h3.symm
    | datetime d => simp [parse_toml] at h3; exact h3.symm
    | array l => simp [parse_toml] at h3; exact h3.symm
  refine ⟨he v e h, ?_, ?_, fun keyToken => ⟨"There is no string for key \x60", rfl⟩⟩
  · rw [he v e h]; rfl
  · rw [he v e h, he w e2 h2]

/-- C9 witness: a non-table input and a table with a boolean value display
the identical fixed message. -/
theorem structure_error_is_coarse_witness :
    Error.display Error.TOMLStructureError =
      "Strings TOML must be flat string/string table" := by
  exact (structure_error_is_coarse (TomlValue.integer 5)
    (TomlValue.table [("a", TomlValue.boolean true)])
    Error.TOMLStructureError Error.TOMLStructureError rfl rfl).2.1

/-- C10: when conversion succeeds and the output file already exists, the
generated code is written at offset 0 without truncating the file (the
output is opened with write+create only), so previous contents beyond the
written range remain, and the resulting file need not equal the generated
text. -/
theorem output_written_without_truncate
    (tomlParse : String → Except TomlDeError TomlValue)
    (pick : List (String × String) → List (String × String))
    (fs : FS) (tomlFile rsFile : String)
    (inputChars oldC : List Char) (code : String)
    (hin : fs tomlFile = some inputChars)
    (hold : fs rsFile = some oldC)
    (hgen : gen_strings_macro tomlParse pick (String.mk inputChars) = Except.ok code) :
    ((convert_strings_file tomlParse pick fs tomlFile rsFile).2 = none) ∧
    ((convert_strings_file tomlParse pick fs tomlFile rsFile).1 rsFile =
      some (code.data ++ oldC.drop code.data.length)) ∧
    (code.data.length < oldC.length →
      (convert_strings_file tomlParse pick fs tomlFile rsFile).1 rsFile ≠ some code.data) := by
  have hc : convert_strings_file tomlParse pick fs tomlFile rsFile =
      (fun p => if p = rsFile then some (writeAt0 (fs rsFile) code.data) else fs p, none) := by
    simp [convert_strings_file, hin, hgen]
  refine ⟨by rw [hc], ?_, ?_⟩
  · rw [hc]
    simp [writeAt0, hold]
  · intro hlt heq
    rw [hc] at heq
    simp [writeAt0, hold] at heq
    have hlen : code.data.length = code.length := rfl
    omega

/-- C10 witness: a concrete successful conversion over an existing output
file reports no error (and hence writes without truncation as proved). -/
theorem output_written_without_truncate_witness :
    (convert_strings_file (fun _ => Except.ok (stringTableValue [("a", "x")]))
      (fun l => l)
      (fun p => if p = "in.toml" then some ['t']
        else if p = "out.rs" then some ['o', 'l', 'd'] else none)
      "in.toml" "out.rs").2 = none := by
  exact (output_written_without_truncate
    (fun _ => Except.ok (stringTableValue [("a", "x")])) (fun l => l)
    (fun p => if p = "in.toml" then some ['t']
      else if p = "out.rs" then some ['o', 'l', 'd'] else none)
    "in.toml" "out.rs" ['t'] ['o', 'l', 'd'] (renderGenerated [("a", "x")])
    rfl rfl rfl).1

end Ctl10n
